import Mathlib

/-!
Verification of the version-bookkeeping git hooks (pre-commit reconciler,
env tag composer, tag publishers) against their natural-language design
document.  The JavaScript sources are shallowly embedded: string
manipulation is modelled over `List Char`, the external git/file-system
collaborators are abstracted as explicit inputs (oracles and option-valued
file contents), and every definition mirrors the corresponding source
function line by line.
-/

namespace Hooks

/-! ## Character-level helpers (JS string primitives) -/

/-- Whitespace characters recognised by the model of JavaScript
`String.prototype.trim` (space, tab, CR, LF, VT, FF). -/
def jsWSb (c : Char) : Bool :=
  c == ' ' || c == '\t' || c == '\r' || c == '\n' || c == '\x0b' || c == '\x0c'

/-- Decimal digit character for a digit value below ten. -/
def dChar (d : Nat) : Char :=
  if d = 0 then '0' else if d = 1 then '1' else if d = 2 then '2'
  else if d = 3 then '3' else if d = 4 then '4' else if d = 5 then '5'
  else if d = 6 then '6' else if d = 7 then '7' else if d = 8 then '8' else '9'

/-- Value of a decimal digit character. -/
def dVal (c : Char) : Nat := c.toNat - 48

/-- Test for a decimal digit character (`0`-`9`). -/
def isDigitChar (c : Char) : Bool := 48 ≤ c.toNat && c.toNat ≤ 57

/-- Fuel-driven decimal rendering of a natural number, most significant
digit first; models how JavaScript template literals print numbers. -/
def natCharsAux : Nat → Nat → List Char
  | 0, _ => []
  | fuel + 1, n =>
    if n < 10 then [dChar n]
    else natCharsAux fuel (n / 10) ++ [dChar (n % 10)]

/-- Decimal rendering of a natural number as a character list. -/
def natChars (n : Nat) : List Char := natCharsAux (n + 1) n

/-- Decimal rendering of a natural number as a string. -/
def natStr (n : Nat) : String := String.mk (natChars n)

/-- Parse a non-empty all-digit character list as a natural number
(models `Number(...)` applied to one group of `split('.')`). -/
def parseDigits (cs : List Char) : Option Nat :=
  if cs ≠ [] ∧ cs.all isDigitChar then
    some (cs.foldl (fun a c => 10 * a + dVal c) 0)
  else none

/-- Split a character list at every occurrence of a separator character;
models JavaScript `String.prototype.split` (so `""` splits to `[""]` and
separators at the ends produce empty groups). -/
def splitOnChar (sep : Char) : List Char → List (List Char)
  | [] => [[]]
  | c :: cs =>
    if c == sep then [] :: splitOnChar sep cs
    else
      match splitOnChar sep cs with
      | [] => [[c]]
      | g :: gs => (c :: g) :: gs

/-- Does the second list start with the first one? -/
def startsWithList : List Char → List Char → Bool
  | [], _ => true
  | _ :: _, [] => false
  | p :: ps, c :: cs => p == c && startsWithList ps cs

/-- Does the pattern occur as a contiguous substring
(models `String.prototype.includes` and regex scanning)? -/
def hasSubstr (pat : List Char) : List Char → Bool
  | [] => startsWithList pat []
  | c :: cs => startsWithList pat (c :: cs) || hasSubstr pat cs

/-- Remove leading JS whitespace. -/
def trimLeftChars (s : List Char) : List Char := s.dropWhile jsWSb

/-- Remove leading and trailing JS whitespace; models
`String.prototype.trim`. -/
def jsTrim (s : List Char) : List Char :=
  (trimLeftChars (trimLeftChars s).reverse).reverse

/-! ## Semantic versions -/

/-- Parsed `major.minor.patch` version triple (spec §3 SemanticVersion). -/
structure Version where
  major : Nat
  minor : Nat
  patch : Nat
deriving DecidableEq, Repr

/-- Canonical character rendering `major.minor.patch` of a version. -/
def vChars (v : Version) : List Char :=
  natChars v.major ++ ('.' :: (natChars v.minor ++ ('.' :: natChars v.patch)))

/-- Canonical string rendering of a version. -/
def vString (v : Version) : String := String.mk (vChars v)

/-- Parse a version string into its three numeric components; models
`s.split('.').map(Number)` destructured into `[major, minor, patch]`
(exactly three all-digit groups, as every reachable input is). -/
def parseVersion (s : String) : Option Version :=
  match (splitOnChar '.' s.data).map parseDigits with
  | [some a, some b, some c] => some ⟨a, b, c⟩
  | _ => none

/-- Test for the anchored regex `^\d+\.\d+\.\d+$` used by
`getCurrentVersion` (part_000 line 292). -/
def isSemverFormat (s : String) : Bool :=
  match splitOnChar '.' s.data with
  | [a, b, c] =>
    !a.isEmpty && a.all isDigitChar && !b.isEmpty && b.all isDigitChar &&
      !c.isEmpty && c.all isDigitChar
  | _ => false

/-! ## Version reconciler (pre-commit hook, part_000 lines 161-224, 311-349)

The hook's per-folder state: the staged (index) version, the HEAD version
(`getHeadVersion` is total, defaulting to `0.0.0`), the version currently
in the working-tree `package.json` (`none` when `fs.readFileSync` on it
throws, the failure both bump helpers catch and turn into `return null`),
and the change-detector result. -/
structure FolderState where
  staged : Option Version
  head : Version
  current : Option Version
  changed : Bool
deriving DecidableEq, Repr

/-- Decision reached by the main loop for one folder. -/
inductive Outcome where
  /-- Branch 1 succeeded: worktree metadata rewritten to `v` and staged. -/
  | resetPatch (v : Version)
  /-- Branch 2: staged version `v` accepted as-is, nothing rewritten. -/
  | manual (v : Version)
  /-- Branch 3 succeeded: worktree metadata rewritten to `v` and staged. -/
  | autoBump (v : Version)
  /-- Branch 3 attempted but `bumpPatchVersion` failed reading the
  worktree file and returned null; nothing rewritten, nothing logged. -/
  | bumpFailed
  /-- Branch 4: no version change needed. -/
  | noop
deriving DecidableEq, Repr

/-- Model of `bumpPatchVersion` (part_000 lines 161-187): read the
worktree `package.json`, increment its patch component; on read failure
the JS catches and returns null. -/
def bumpPatchVersion (current : Option Version) : Option Version :=
  match current with
  | some c => some ⟨c.major, c.minor, c.patch + 1⟩
  | none => none

/-- Model of `handleMinorVersionBump` (part_000 lines 189-224): when the
staged version keeps the major and raises the minor, rewrite the worktree
metadata to `staged.major.staged.minor.0`; on any failure (in particular
an unreadable worktree file) the JS catches and returns null. -/
def handleMinorVersionBump (stg head : Version) (current : Option Version) :
    Option Version :=
  if stg.major = head.major ∧ head.minor < stg.minor then
    match current with
    | some _ => some ⟨stg.major, stg.minor, 0⟩
    | none => none
  else none

/-- The main-loop decision for one folder (part_000 lines 325-348):
branch 1 `handleMinorVersionBump`, branch 2 manual override when the
staged version differs from HEAD, branch 3 auto patch bump when other
files are staged, branch 4 no-op. -/
def reconcile (st : FolderState) : Outcome :=
  match st.staged with
  | some stg =>
    match handleMinorVersionBump stg st.head st.current with
    | some v => .resetPatch v
    | none =>
      if stg ≠ st.head then .manual stg
      else if st.changed then
        match bumpPatchVersion st.current with
        | some v => .autoBump v
        | none => .bumpFailed
      else .noop
  | none =>
    if st.changed then
      match bumpPatchVersion st.current with
      | some v => .autoBump v
      | none => .bumpFailed
    else .noop

/-- Does an outcome rewrite (and stage) the metadata file? -/
def writesFile : Outcome → Bool
  | .resetPatch _ => true
  | .autoBump _ => true
  | _ => false

/-! ## Version readers (part_000 lines 59-133 and 277-303) -/

/-- Abstract result of probing a metadata file: the file (or git blob) is
absent, its content fails to parse as JSON, the parsed object lacks a
`version` field, or it carries the string `s`. -/
inductive MetaContent where
  | missing
  | unreadable
  | noVersionField
  | withVersion (s : String)
deriving DecidableEq, Repr

/-- Model of `getStagedVersion` (part_000 lines 59-73): any failure of
`git show :path` or of JSON parsing is caught and yields null; a missing
`version` field yields undefined.  Both are `none` here. -/
def getStagedVersion : MetaContent → Option String
  | .missing => none
  | .unreadable => none
  | .noVersionField => none
  | .withVersion s => some s

/-- Model of `getHeadVersion` (part_000 lines 75-133): a missing blob,
unreadable content, or falsy `version` field yields `"0.0.0"`; a present
non-empty `version` string is returned unvalidated. -/
def getHeadVersion : MetaContent → String
  | .missing => "0.0.0"
  | .unreadable => "0.0.0"
  | .noVersionField => "0.0.0"
  | .withVersion s => if s = "" then "0.0.0" else s

/-- Model of `getCurrentVersion` (part_000 lines 277-303): like
`getHeadVersion` but additionally validates the anchored regex
`^\d+\.\d+\.\d+$`, defaulting to `"0.0.0"` when it fails. -/
def getCurrentVersion : MetaContent → String
  | .missing => "0.0.0"
  | .unreadable => "0.0.0"
  | .noVersionField => "0.0.0"
  | .withVersion s =>
    if s = "" then "0.0.0" else if isSemverFormat s then s else "0.0.0"

/-! ## Log rotation (`manageLog`, part_000 lines 22-37) -/

/-- Is a log line blank, i.e. does `line.trim()` give a falsy value? -/
def isBlankLine (l : List Char) : Bool := l.all jsWSb

/-- Number of non-blank lines of a log file, exactly as `manageLog`
counts them: `split('\n').filter(line => line.trim())`. -/
def logEntries (content : String) : Nat :=
  ((splitOnChar '\n' content.data).filter (fun l => !isBlankLine l)).length

/-- Model of `manageLog` on an existing log file: returns whether the
file was cleared together with its new content. -/
def manageLog (content : String) (maxEntries : Nat) : Bool × String :=
  if maxEntries < logEntries content then (true, "") else (false, content)

/-! ## Line-structured views of file contents -/

/-- Concatenate lines, terminating every line with a newline (the shape
of a well-formed line-oriented file). -/
def joinLines (ls : List (List Char)) : List Char :=
  List.foldr (fun l acc => l ++ '\n' :: acc) [] ls

/-- Concatenate lines with newline separators but no final newline. -/
def joinSep : List (List Char) → List Char
  | [] => []
  | [l] => l
  | l :: ls => l ++ '\n' :: joinSep ls

/-- Is the list non-empty with a non-whitespace first character? -/
def headNotWS : List Char → Bool
  | [] => false
  | c :: _ => !jsWSb c

/-- A well-behaved environment-file line: non-empty, no interior newline,
and neither its first nor its last character is whitespace. -/
def goodLine (l : List Char) : Bool :=
  headNotWS l && headNotWS l.reverse && l.all (fun c => !(c == '\n'))

/-- A well-behaved tag value: non-empty, no interior newline, and its
last character is not whitespace (every actual `TagVersion` ends in a
digit). -/
def goodTagValue (t : List Char) : Bool :=
  headNotWS t.reverse && t.all (fun c => !(c == '\n'))

/-- A log file holding `n` single-line entries (`"x\n"` repeated). -/
def mkEntries (n : Nat) : String :=
  String.mk (joinLines (List.replicate n ['x']))

/-! ## Tag composer and environment file (part_000 lines 226-269) -/

/-- The managed key of the environment file. -/
def tagKey : List Char := "TAG_VERSION=".data

/-- Model of `envContent.replace(/TAG_VERSION=.*/, "TAG_VERSION=" + tag)`:
replace from the leftmost occurrence of `TAG_VERSION=` through the end of
that line. -/
def replaceTagFirst (tag : List Char) : List Char → List Char
  | [] => []
  | c :: cs =>
    if startsWithList tagKey (c :: cs) then
      tagKey ++ tag ++ (c :: cs).dropWhile (fun x => !(x == '\n'))
    else c :: replaceTagFirst tag cs

/-- Core of `updateEnvTagVersion`'s file edit (part_000 lines 243-259):
replace the first `TAG_VERSION=` line when the substring occurs, else
append `TAG_VERSION=<tag>\n`; then `trim()` the whole content before
writing it back. -/
def updateEnvCore (s tag : List Char) : List Char :=
  if hasSubstr tagKey s then jsTrim (replaceTagFirst tag s)
  else jsTrim (s ++ tagKey ++ tag ++ ['\n'])

/-- String-level wrapper of `updateEnvCore`; the prior content is `""`
when the environment file does not exist. -/
def updateEnvContent (prior tag : String) : String :=
  String.mk (updateEnvCore prior.data tag.data)

/-- Composition of the tag version (part_000 lines 237-241): parse the
two folder version strings and build
`backMinor.backPatch.webMinor.webPatch`. -/
def composeTagVersion (backStr webStr : String) : Option String :=
  match parseVersion backStr, parseVersion webStr with
  | some b, some w =>
    some (natStr b.minor ++ "." ++ natStr b.patch ++ "." ++
      natStr w.minor ++ "." ++ natStr w.patch)
  | _, _ => none

/-! ## Reading `TAG_VERSION` back (deploy.js lines 41-59, part_000
lines 414-426) -/

/-- Model of `envContent.match(/TAG_VERSION=([^\n]+)/)`: the leftmost
position where `TAG_VERSION=` is followed by at least one non-newline
character; the capture runs to the end of that line. -/
def matchTagValue : List Char → Option (List Char)
  | [] => none
  | c :: cs =>
    if startsWithList tagKey (c :: cs) &&
        !((List.drop tagKey.length (c :: cs)).takeWhile
          (fun x => !(x == '\n'))).isEmpty then
      some ((List.drop tagKey.length (c :: cs)).takeWhile
        (fun x => !(x == '\n')))
    else matchTagValue cs

/-- Model of `getTagVersion` in both publishers: the matched value, or
`none` when the regex fails and the JS throws. -/
def getTagVersionFromEnv (env : String) : Option String :=
  (matchTagValue env.data).map String.mk

/-! ## Tag publishers

Both publishers are driven by two oracles: `store t` tells whether tag
`t` already exists (deploy.js probes with `git rev-parse`, the hook with
`git tag -l`; both are abstracted as one existence oracle), and `ok t`
tells whether creating, pushing (and, for the hook, remote-verifying)
tag `t` succeeds. -/

/-- Candidate tag name for a given counter (deploy.js line 88). -/
def candidateName (base : String) (counter : Nat) : String :=
  if counter = 0 then base else base ++ "-" ++ natStr counter

namespace Deploy

/-- The retry loop of `createAndPushTag` (deploy.js lines 87-120): while
the counter is below the attempt bound, probe the candidate; an existing
tag or a failed create/push advances the counter; a successful
create/push returns the published name.  `fuel` is the number of loop
iterations still allowed (`maxAttempts - counter`). -/
def tagAttempts (store ok : String → Bool) (base : String) :
    Nat → Nat → Option String
  | _, 0 => none
  | counter, fuel + 1 =>
    if store (candidateName base counter) then
      tagAttempts store ok base (counter + 1) fuel
    else if ok (candidateName base counter) then
      some (candidateName base counter)
    else tagAttempts store ok base (counter + 1) fuel

/-- Number of loop iterations (attempts) actually consumed. -/
def tagAttemptsCount (store ok : String → Bool) (base : String) :
    Nat → Nat → Nat
  | _, 0 => 0
  | counter, fuel + 1 =>
    if store (candidateName base counter) then
      tagAttemptsCount store ok base (counter + 1) fuel + 1
    else if ok (candidateName base counter) then 1
    else tagAttemptsCount store ok base (counter + 1) fuel + 1

/-- Model of `createAndPushTag` (deploy.js lines 73-133): read the tag
version, run the bounded retry loop with `maxAttempts = 100`. -/
def createAndPushTag (store ok : String → Bool) (env : String) :
    Option String :=
  match getTagVersionFromEnv env with
  | none => none
  | some v => tagAttempts store ok ("v" ++ v) 0 100

/-- Process outcome of running deploy.js: published tag and exit 0, or
`process.exit(1)` when `getTagVersion` throws or the bound is exhausted. -/
def deployMain (store ok : String → Bool) (env : String) :
    Except Nat String :=
  match getTagVersionFromEnv env with
  | none => .error 1
  | some v =>
    match tagAttempts store ok ("v" ++ v) 0 100 with
    | some t => .ok t
    | none => .error 1

end Deploy

namespace PostCommit

/-- Model of the post-commit hook's `createAndPushTag` (part_000
lines 437-480): read the tag version, fail outright when the base tag
already exists (`throw new Error('Tag ... already exists')`), otherwise
create, push and verify it once — no retry, no suffix counter. -/
def createAndPushTag (store ok : String → Bool) (env : String) :
    Option String :=
  match getTagVersionFromEnv env with
  | none => none
  | some v =>
    if store ("v" ++ v) then none
    else if ok ("v" ++ v) then some ("v" ++ v)
    else none

end PostCommit

/-! ## Digit and decimal-rendering lemmas -/

theorem dChar_spec : ∀ d, d < 10 → isDigitChar (dChar d) = true ∧ dVal (dChar d) = d := by
  decide

theorem isDigitChar_ne_dot {c : Char} (h : isDigitChar c = true) : c ≠ '.' := by
  rintro rfl
  exact absurd h (by decide)

theorem isDigitChar_ne_nl {c : Char} (h : isDigitChar c = true) : c ≠ '\n' := by
  rintro rfl
  exact absurd h (by decide)

theorem natCharsAux_spec :
    ∀ fuel n, n < fuel →
      (∀ c ∈ natCharsAux fuel n, isDigitChar c = true) ∧
      natCharsAux fuel n ≠ [] ∧
      ∀ acc, List.foldl (fun a c => 10 * a + dVal c) acc (natCharsAux fuel n)
        = acc * 10 ^ (natCharsAux fuel n).length + n := by
  intro fuel
  induction fuel with
  | zero => intro n h; omega
  | succ fuel ih =>
    intro n h
    by_cases h10 : n < 10
    · simp only [natCharsAux, if_pos h10]
      refine ⟨?_, by simp, ?_⟩
      · intro c hc
        simp only [List.mem_singleton] at hc
        subst hc
        exact (dChar_spec n h10).1
      · intro acc
        simp only [List.foldl_cons, List.foldl_nil, List.length_singleton, pow_one]
        rw [(dChar_spec n h10).2]
        ring
    · simp only [natCharsAux, if_neg h10]
      have hdiv : n / 10 < n := Nat.div_lt_self (by omega) (by omega)
      obtain ⟨hdig, hne, hfold⟩ := ih (n / 10) (by omega)
      have hmod : n % 10 < 10 := Nat.mod_lt _ (by omega)
      refine ⟨?_, by simp, ?_⟩
      · intro c hc
        rcases List.mem_append.mp hc with h1 | h2
        · exact hdig c h1
        · simp only [List.mem_singleton] at h2
          subst h2
          exact (dChar_spec (n % 10) hmod).1
      · intro acc
        rw [List.foldl_append]
        simp only [List.foldl_cons, List.foldl_nil, List.length_append,
          List.length_singleton]
        rw [hfold acc, (dChar_spec (n % 10) hmod).2]
        calc 10 * (acc * 10 ^ (natCharsAux fuel (n / 10)).length + n / 10) + n % 10
            = acc * (10 ^ (natCharsAux fuel (n / 10)).length * 10)
              + (10 * (n / 10) + n % 10) := by ring
          _ = acc * 10 ^ ((natCharsAux fuel (n / 10)).length + 1) + n := by
              rw [Nat.div_add_mod, pow_succ]

theorem natChars_digits {n : Nat} : ∀ c ∈ natChars n, isDigitChar c = true :=
  (natCharsAux_spec (n + 1) n (by omega)).1

theorem natChars_ne_nil {n : Nat} : natChars n ≠ [] :=
  (natCharsAux_spec (n + 1) n (by omega)).2.1

theorem parseDigits_natChars (n : Nat) : parseDigits (natChars n) = some n := by
  obtain ⟨hdig, hne, hfold⟩ := natCharsAux_spec (n + 1) n (by omega)
  unfold parseDigits
  rw [if_pos ⟨hne, by simpa [List.all_eq_true] using hdig⟩]
  rw [show natChars n = natCharsAux (n + 1) n from rfl, hfold 0]
  simp

theorem natChars_inj {a b : Nat} (h : natChars a = natChars b) : a = b := by
  have ha := parseDigits_natChars a
  rw [h, parseDigits_natChars b] at ha
  exact (Option.some_inj.mp ha).symm

theorem natStr_inj {a b : Nat} (h : natStr a = natStr b) : a = b := by
  apply natChars_inj
  have := congrArg String.data h
  exact this

/-! ## Splitting and substring lemmas -/

theorem splitOnChar_sepFree {sep : Char} :
    ∀ {xs : List Char}, (∀ c ∈ xs, c ≠ sep) → splitOnChar sep xs = [xs]
  | [], _ => rfl
  | c :: cs, h => by
    have hc : (c == sep) = false :=
      beq_eq_false_iff_ne.mpr (h c (List.mem_cons_self c cs))
    have ih := splitOnChar_sepFree (fun d hd => h d (List.mem_cons_of_mem c hd))
    simp only [splitOnChar, hc, Bool.false_eq_true, if_false, ih]

theorem splitOnChar_append_sep {sep : Char} :
    ∀ {xs : List Char} (ys : List Char), (∀ c ∈ xs, c ≠ sep) →
      splitOnChar sep (xs ++ sep :: ys) = xs :: splitOnChar sep ys
  | [], ys, _ => by simp [splitOnChar]
  | c :: cs, ys, h => by
    have hc : (c == sep) = false :=
      beq_eq_false_iff_ne.mpr (h c (List.mem_cons_self c cs))
    have ih := splitOnChar_append_sep ys (fun d hd => h d (List.mem_cons_of_mem c hd))
    simp only [List.cons_append, splitOnChar, hc, Bool.false_eq_true, if_false,
      List.append_eq, ih]

theorem startsWithList_append_self : ∀ (p ys : List Char),
    startsWithList p (p ++ ys) = true
  | [], _ => rfl
  | c :: ps, ys => by
    simp [startsWithList, startsWithList_append_self ps ys]

theorem tagKey_no_nl : ∀ a ∈ tagKey, a ≠ '\n' := by decide

theorem startsWithList_nl_stop :
    ∀ (p : List Char), (∀ a ∈ p, a ≠ '\n') → ∀ (xs rest : List Char),
      startsWithList p (xs ++ '\n' :: rest) = startsWithList p xs
  | [], _, xs, rest => by cases xs <;> rfl
  | a :: ps, h, [], rest => by
    have ha : (a == '\n') = false :=
      beq_eq_false_iff_ne.mpr (h a (List.mem_cons_self a ps))
    simp [startsWithList, ha]
  | a :: ps, h, x :: xs, rest => by
    have ih := startsWithList_nl_stop ps
      (fun d hd => h d (List.mem_cons_of_mem a hd)) xs rest
    simp [startsWithList, ih]

theorem hasSubstr_of_startsWith {s : List Char}
    (h : startsWithList tagKey s = true) : hasSubstr tagKey s = true := by
  cases s with
  | nil => exact h
  | cons c cs => simp [hasSubstr, h]

theorem hasSubstr_append_nl : ∀ (l rest : List Char),
    hasSubstr tagKey (l ++ '\n' :: rest)
      = (hasSubstr tagKey l || hasSubstr tagKey rest)
  | [], rest => rfl
  | c :: l, rest => by
    show (startsWithList tagKey ((c :: l) ++ '\n' :: rest)
        || hasSubstr tagKey (l ++ '\n' :: rest)) = _
    rw [startsWithList_nl_stop tagKey tagKey_no_nl (c :: l) rest,
      hasSubstr_append_nl l rest]
    simp [hasSubstr, Bool.or_assoc]

/-! ## Lemmas about the environment-file rewrite -/

theorem replaceTagFirst_skip_line {tag : List Char} :
    ∀ {l : List Char} (rest : List Char), hasSubstr tagKey l = false →
      replaceTagFirst tag (l ++ '\n' :: rest) = l ++ '\n' :: replaceTagFirst tag rest
  | [], rest, _ => by
    show replaceTagFirst tag ('\n' :: rest) = '\n' :: replaceTagFirst tag rest
    rw [replaceTagFirst]
    simp [show startsWithList tagKey ('\n' :: rest) = false from rfl]
  | c :: l, rest, h => by
    have h1 : startsWithList tagKey (c :: l) = false := by
      simp only [hasSubstr, Bool.or_eq_false_iff] at h
      exact h.1
    have h2 : hasSubstr tagKey l = false := by
      simp only [hasSubstr, Bool.or_eq_false_iff] at h
      exact h.2
    have hsw : startsWithList tagKey (c :: (l ++ '\n' :: rest)) = false := by
      rw [← List.cons_append, startsWithList_nl_stop tagKey tagKey_no_nl (c :: l) rest]
      exact h1
    rw [List.cons_append, replaceTagFirst, hsw]
    simp only [Bool.false_eq_true, if_false]
    rw [replaceTagFirst_skip_line rest h2]
    simp

theorem replaceTagFirst_at_key {tag rest : List Char} :
    replaceTagFirst tag (tagKey ++ rest)
      = tagKey ++ tag ++ (tagKey ++ rest).dropWhile (fun x => !(x == '\n')) := by
  have hcons : tagKey ++ rest = 'T' :: ("AG_VERSION=".data ++ rest) := rfl
  rw [hcons, replaceTagFirst]
  rw [show ('T' :: ("AG_VERSION=".data ++ rest)) = tagKey ++ rest from rfl]
  simp [startsWithList_append_self tagKey rest]

theorem dropWhile_until_nl :
    ∀ {xs : List Char} (ys : List Char), (∀ c ∈ xs, c ≠ '\n') →
      (xs ++ '\n' :: ys).dropWhile (fun x => !(x == '\n')) = '\n' :: ys
  | [], ys, _ => by simp [List.dropWhile]
  | c :: cs, ys, h => by
    have hc : (c == '\n') = false :=
      beq_eq_false_iff_ne.mpr (h c (List.mem_cons_self c cs))
    have ih := dropWhile_until_nl ys (fun d hd => h d (List.mem_cons_of_mem c hd))
    simp only [List.cons_append, List.dropWhile_cons, hc, Bool.not_false, if_true]
    exact ih

/-! ## Trim lemmas -/

theorem trimLeft_of_headNotWS {s : List Char} (h : headNotWS s = true) :
    trimLeftChars s = s := by
  cases s with
  | nil => rfl
  | cons c cs =>
    have hc : jsWSb c = false := by
      simp only [headNotWS, Bool.not_eq_true'] at h
      exact h
    simp [trimLeftChars, List.dropWhile_cons, hc]

theorem headNotWS_append {s : List Char} (t : List Char)
    (h : headNotWS s = true) : headNotWS (s ++ t) = true := by
  cases s with
  | nil => exact absurd h (by decide)
  | cons c cs => exact h

theorem jsTrim_of_good {s : List Char} (h1 : headNotWS s = true)
    (h2 : headNotWS s.reverse = true) : jsTrim s = s := by
  unfold jsTrim
  rw [trimLeft_of_headNotWS h1, trimLeft_of_headNotWS h2, List.reverse_reverse]

theorem jsTrim_final_nl {s : List Char} (h1 : headNotWS s = true)
    (h2 : headNotWS s.reverse = true) : jsTrim (s ++ ['\n']) = s := by
  unfold jsTrim
  rw [trimLeft_of_headNotWS (headNotWS_append ['\n'] h1)]
  rw [List.reverse_append]
  show (trimLeftChars ('\n' :: s.reverse)).reverse = s
  rw [show trimLeftChars ('\n' :: s.reverse)
      = trimLeftChars s.reverse from by
    simp [trimLeftChars, List.dropWhile_cons, show jsWSb '\n' = true from rfl]]
  rw [trimLeft_of_headNotWS h2, List.reverse_reverse]

/-! ## Line-structure lemmas -/

theorem joinLines_cons (l : List Char) (ls : List (List Char)) :
    joinLines (l :: ls) = l ++ '\n' :: joinLines ls := rfl

theorem joinLines_append : ∀ (as bs : List (List Char)),
    joinLines (as ++ bs) = joinLines as ++ joinLines bs
  | [], _ => rfl
  | a :: as, bs => by
    rw [List.cons_append, joinLines_cons, joinLines_cons,
      joinLines_append as bs]
    simp [List.append_assoc]

theorem joinSep_cons_cons (l l' : List Char) (ls : List (List Char)) :
    joinSep (l :: l' :: ls) = l ++ '\n' :: joinSep (l' :: ls) := rfl

theorem joinLines_eq_joinSep : ∀ {ls : List (List Char)}, ls ≠ [] →
    joinLines ls = joinSep ls ++ ['\n']
  | [], h => absurd rfl h
  | [l], _ => rfl
  | l :: l' :: ls, _ => by
    rw [joinLines_cons, joinSep_cons_cons,
      @joinLines_eq_joinSep (l' :: ls) (by simp)]
    simp

theorem joinSep_ne_nil : ∀ {ls : List (List Char)}, ls ≠ [] →
    (∀ l ∈ ls, headNotWS l = true) → joinSep ls ≠ []
  | [], h, _ => absurd rfl h
  | [l], _, hg => by
    have := hg l (by simp)
    cases l with
    | nil => exact absurd this (by decide)
    | cons c cs => simp [joinSep]
  | l :: l' :: ls, _, hg => by
    have hl := hg l (by simp)
    cases l with
    | nil => exact absurd hl (by decide)
    | cons c cs => simp [joinSep_cons_cons]

theorem headNotWS_joinSep : ∀ {ls : List (List Char)}, ls ≠ [] →
    (∀ l ∈ ls, headNotWS l = true) → headNotWS (joinSep ls) = true
  | [], h, _ => absurd rfl h
  | [l], _, hg => hg l (by simp)
  | l :: l' :: ls, _, hg => by
    rw [joinSep_cons_cons]
    exact headNotWS_append _ (hg l (by simp))

theorem headNotWS_reverse_joinSep : ∀ {ls : List (List Char)}, ls ≠ [] →
    (∀ l ∈ ls, headNotWS l = true ∧ headNotWS l.reverse = true) →
    headNotWS (joinSep ls).reverse = true
  | [], h, _ => absurd rfl h
  | [l], _, hg => (hg l (by simp)).2
  | l :: l' :: ls, _, hg => by
    rw [joinSep_cons_cons, List.reverse_append, List.reverse_cons,
      List.append_assoc]
    apply headNotWS_append
    have hrec := @headNotWS_reverse_joinSep (l' :: ls) (by simp)
      (fun x hx => hg x (List.mem_cons_of_mem l hx))
    have hne : joinSep (l' :: ls) ≠ [] :=
      joinSep_ne_nil (by simp) (fun x hx => (hg x (List.mem_cons_of_mem l hx)).1)
    cases he : (joinSep (l' :: ls)).reverse with
    | nil => exact absurd (by simpa using he) hne
    | cons c cs => rw [he] at hrec; exact hrec

theorem splitOnChar_joinSep : ∀ {ls : List (List Char)}, ls ≠ [] →
    (∀ l ∈ ls, ∀ c ∈ l, c ≠ '\n') → splitOnChar '\n' (joinSep ls) = ls
  | [], h, _ => absurd rfl h
  | [l], _, hg => splitOnChar_sepFree (hg l (by simp))
  | l :: l' :: ls, _, hg => by
    rw [joinSep_cons_cons, splitOnChar_append_sep _ (hg l (by simp)),
      @splitOnChar_joinSep (l' :: ls) (by simp)
        (fun x hx => hg x (List.mem_cons_of_mem l hx))]

/-! ## Putting the environment-file pieces together -/

theorem goodLine_parts {l : List Char} (h : goodLine l = true) :
    headNotWS l = true ∧ headNotWS l.reverse = true ∧ ∀ c ∈ l, c ≠ '\n' := by
  unfold goodLine at h
  simp only [Bool.and_eq_true, List.all_eq_true] at h
  refine ⟨h.1.1, h.1.2, fun c hc => ?_⟩
  have hb := h.2 c hc
  simp only [Bool.not_eq_true'] at hb
  exact beq_eq_false_iff_ne.mp hb

theorem goodTagValue_parts {t : List Char} (h : goodTagValue t = true) :
    headNotWS t.reverse = true ∧ ∀ c ∈ t, c ≠ '\n' := by
  unfold goodTagValue at h
  simp only [Bool.and_eq_true, List.all_eq_true] at h
  refine ⟨h.1, fun c hc => ?_⟩
  have hb := h.2 c hc
  simp only [Bool.not_eq_true'] at hb
  exact beq_eq_false_iff_ne.mp hb

theorem goodLine_tagline {tag : List Char} (htag : goodTagValue tag = true) :
    goodLine (tagKey ++ tag) = true := by
  obtain ⟨hrev, hnl⟩ := goodTagValue_parts htag
  unfold goodLine
  simp only [Bool.and_eq_true]
  refine ⟨⟨rfl, ?_⟩, ?_⟩
  · rw [List.reverse_append]
    exact headNotWS_append _ hrev
  · simp only [List.all_append, Bool.and_eq_true, List.all_eq_true]
    constructor
    · decide
    · intro c hc
      simpa using beq_eq_false_iff_ne.mpr (hnl c hc)

theorem hasSubstr_joinLines : ∀ {ls : List (List Char)},
    (∀ l ∈ ls, hasSubstr tagKey l = false) →
    hasSubstr tagKey (joinLines ls) = false
  | [], _ => rfl
  | l :: ls, h => by
    rw [joinLines_cons, hasSubstr_append_nl, h l (by simp),
      hasSubstr_joinLines (fun x hx => h x (List.mem_cons_of_mem l hx))]
    rfl

theorem hasSubstr_through_lines : ∀ (ls : List (List Char)) {R : List Char},
    hasSubstr tagKey R = true → hasSubstr tagKey (joinLines ls ++ R) = true
  | [], _, h => h
  | l :: ls, R, h => by
    rw [joinLines_cons, List.append_assoc, List.cons_append, hasSubstr_append_nl,
      hasSubstr_through_lines ls h]
    simp

theorem replaceTagFirst_through_lines {tag : List Char} :
    ∀ (ls : List (List Char)) (R : List Char),
      (∀ l ∈ ls, hasSubstr tagKey l = false) →
      replaceTagFirst tag (joinLines ls ++ R)
        = joinLines ls ++ replaceTagFirst tag R
  | [], _, _ => rfl
  | l :: ls, R, h => by
    rw [joinLines_cons, List.append_assoc, List.cons_append,
      replaceTagFirst_skip_line _ (h l (by simp)),
      replaceTagFirst_through_lines ls R
        (fun x hx => h x (List.mem_cons_of_mem l hx))]
    simp

theorem splitOnChar_jsTrim_joinLines {L : List (List Char)} (hne : L ≠ [])
    (hg : ∀ l ∈ L, goodLine l = true) :
    splitOnChar '\n' (jsTrim (joinLines L)) = L := by
  rw [joinLines_eq_joinSep hne]
  rw [jsTrim_final_nl
    (headNotWS_joinSep hne (fun l hl => (goodLine_parts (hg l hl)).1))
    (headNotWS_reverse_joinSep hne
      (fun l hl => ⟨(goodLine_parts (hg l hl)).1, (goodLine_parts (hg l hl)).2.1⟩))]
  exact splitOnChar_joinSep hne (fun l hl => (goodLine_parts (hg l hl)).2.2)

theorem updateEnv_append_case {ls : List (List Char)} {tag : List Char}
    (hls : ∀ l ∈ ls, goodLine l = true ∧ hasSubstr tagKey l = false)
    (htag : goodTagValue tag = true) :
    splitOnChar '\n' (updateEnvCore (joinLines ls) tag)
      = ls ++ [tagKey ++ tag] := by
  unfold updateEnvCore
  rw [hasSubstr_joinLines (fun l hl => (hls l hl).2)]
  simp only [Bool.false_eq_true, if_false]
  have hshape : joinLines ls ++ tagKey ++ tag ++ ['\n']
      = joinLines (ls ++ [tagKey ++ tag]) := by
    rw [joinLines_append]
    simp [joinLines, List.append_assoc]
  rw [hshape]
  apply splitOnChar_jsTrim_joinLines (by simp)
  intro l hl
  rcases List.mem_append.mp hl with h1 | h2
  · exact (hls l h1).1
  · simp only [List.mem_singleton] at h2
    subst h2
    exact goodLine_tagline htag

theorem updateEnv_replace_case {ls1 ls2 : List (List Char)} {old tag : List Char}
    (h1 : ∀ l ∈ ls1, goodLine l = true ∧ hasSubstr tagKey l = false)
    (h2 : ∀ l ∈ ls2, goodLine l = true ∧ hasSubstr tagKey l = false)
    (hold : goodTagValue old = true) (htag : goodTagValue tag = true) :
    splitOnChar '\n'
        (updateEnvCore (joinLines (ls1 ++ (tagKey ++ old) :: ls2)) tag)
      = ls1 ++ (tagKey ++ tag) :: ls2 := by
  have hJ : joinLines (ls1 ++ (tagKey ++ old) :: ls2)
      = joinLines ls1 ++ (tagKey ++ (old ++ '\n' :: joinLines ls2)) := by
    rw [joinLines_append, joinLines_cons]
    simp [List.append_assoc]
  have hsub : hasSubstr tagKey (joinLines (ls1 ++ (tagKey ++ old) :: ls2)) = true := by
    rw [hJ]
    exact hasSubstr_through_lines ls1
      (hasSubstr_of_startsWith (startsWithList_append_self tagKey _))
  unfold updateEnvCore
  rw [hsub]
  simp only [if_true]
  rw [hJ, replaceTagFirst_through_lines ls1 _ (fun l hl => (h1 l hl).2),
    replaceTagFirst_at_key]
  have hdrop : (tagKey ++ (old ++ '\n' :: joinLines ls2)).dropWhile
      (fun x => !(x == '\n')) = '\n' :: joinLines ls2 := by
    rw [show tagKey ++ (old ++ '\n' :: joinLines ls2)
        = (tagKey ++ old) ++ '\n' :: joinLines ls2 from by simp [List.append_assoc]]
    apply dropWhile_until_nl
    intro c hc
    rcases List.mem_append.mp hc with hk | ho
    · exact tagKey_no_nl c hk
    · exact (goodTagValue_parts hold).2 c ho
  rw [hdrop]
  have hshape : joinLines ls1 ++ (tagKey ++ tag ++ '\n' :: joinLines ls2)
      = joinLines (ls1 ++ (tagKey ++ tag) :: ls2) := by
    rw [joinLines_append, joinLines_cons]
  rw [hshape]
  apply splitOnChar_jsTrim_joinLines (by simp)
  intro l hl
  rcases List.mem_append.mp hl with ha | hb
  · exact (h1 l ha).1
  · rcases List.mem_cons.mp hb with hc | hd
    · subst hc
      exact goodLine_tagline htag
    · exact (h2 l hd).1

/-! ## Version-string round trip -/

theorem parseVersion_vString (v : Version) : parseVersion (vString v) = some v := by
  have hdata : (vString v).data
      = natChars v.major ++ '.' :: (natChars v.minor ++ '.' :: natChars v.patch) :=
    rfl
  unfold parseVersion
  rw [hdata,
    splitOnChar_append_sep _ (fun c hc => isDigitChar_ne_dot (natChars_digits c hc)),
    splitOnChar_append_sep _ (fun c hc => isDigitChar_ne_dot (natChars_digits c hc)),
    splitOnChar_sepFree (fun c hc => isDigitChar_ne_dot (natChars_digits c hc))]
  simp [parseDigits_natChars]

/-! ## Tag-publisher lemmas -/

theorem string_data_append (a b : String) : (a ++ b).data = a.data ++ b.data := by
  cases a
  cases b
  rfl

theorem natStr_len_pos (n : Nat) : 1 ≤ (natStr n).data.length :=
  List.length_pos.mpr natChars_ne_nil

theorem candidateName_inj (base : String) {i j : Nat} (hne : i ≠ j) :
    candidateName base i ≠ candidateName base j := by
  intro he
  unfold candidateName at he
  by_cases hi : i = 0 <;> by_cases hj : j = 0
  · exact hne (hi.trans hj.symm)
  · rw [if_pos hi, if_neg hj] at he
    have hlen := congrArg (fun s => s.data.length) he
    simp only [string_data_append, List.length_append,
      show ("-" : String).data.length = 1 from rfl] at hlen
    have := natStr_len_pos j
    omega
  · rw [if_neg hi, if_pos hj] at he
    have hlen := congrArg (fun s => s.data.length) he
    simp only [string_data_append, List.length_append,
      show ("-" : String).data.length = 1 from rfl] at hlen
    have := natStr_len_pos i
    omega
  · rw [if_neg hi, if_neg hj] at he
    have hdata := congrArg String.data he
    simp only [string_data_append] at hdata
    rw [List.append_assoc, List.append_assoc] at hdata
    have h2 := List.append_cancel_left hdata
    have h3 := List.append_cancel_left h2
    exact hne (natChars_inj h3)

theorem tagAttempts_first_free (store : String → Bool) (base : String) :
    ∀ (fuel counter k : Nat), counter ≤ k → k < counter + fuel →
      store (candidateName base k) = false →
      (∀ j, counter ≤ j → j < k → store (candidateName base j) = true) →
      Deploy.tagAttempts store (fun _ => true) base counter fuel
        = some (candidateName base k) := by
  intro fuel
  induction fuel with
  | zero => intro counter k h1 h2 _ _; omega
  | succ fuel ih =>
    intro counter k h1 h2 hfree hbusy
    by_cases hck : counter = k
    · subst hck
      unfold Deploy.tagAttempts
      rw [hfree]
      simp
    · have hstore : store (candidateName base counter) = true :=
        hbusy counter (le_refl _) (by omega)
      unfold Deploy.tagAttempts
      rw [hstore]
      simp only [if_true]
      exact ih (counter + 1) k (by omega) (by omega) hfree
        (fun j hj1 hj2 => hbusy j (by omega) hj2)

theorem tagAttemptsCount_le (store ok : String → Bool) (base : String) :
    ∀ (fuel counter : Nat),
      Deploy.tagAttemptsCount store ok base counter fuel ≤ fuel := by
  intro fuel
  induction fuel with
  | zero => intro counter; simp [Deploy.tagAttemptsCount]
  | succ fuel ih =>
    intro counter
    unfold Deploy.tagAttemptsCount
    by_cases h1 : store (candidateName base counter) = true
    · rw [if_pos h1]
      have := ih (counter + 1)
      omega
    · rw [if_neg h1]
      by_cases h2 : ok (candidateName base counter) = true
      · rw [if_pos h2]
        omega
      · rw [if_neg h2]
        have := ih (counter + 1)
        omega

/-! ## Log-entry counting -/

theorem logEntries_mkEntries : ∀ n, logEntries (mkEntries n) = n := by
  intro n
  unfold logEntries mkEntries
  rw [show (String.mk (joinLines (List.replicate n ['x']))).data
      = joinLines (List.replicate n ['x']) from rfl]
  induction n with
  | zero => rfl
  | succ n ih =>
    rw [List.replicate_succ, joinLines_cons,
      splitOnChar_append_sep _ (by intro c hc; simp at hc; subst hc; decide)]
    simp only [List.filter_cons, show (!isBlankLine ['x']) = true from rfl,
      if_true, List.length_cons]
    omega

/-! ## Claims -/

/-- C1 (amended): when the staged version is present with the same major
and a strictly larger minor than HEAD, the reconciler rewrites the
metadata version to `staged.major.staged.minor.0` regardless of the
changed flag, provided the working-tree metadata file is readable; when
that file is unreadable the rewrite fails inside `handleMinorVersionBump`
and the staged version is instead accepted as a manual change.  In either
case the auto-patch-bump branch is never taken. -/
theorem C1_minor_bump_priority (st : FolderState) (s : Version)
    (hs : st.staged = some s) (hmaj : s.major = st.head.major)
    (hmin : st.head.minor < s.minor) :
    (∀ c, st.current = some c →
      reconcile st = Outcome.resetPatch ⟨s.major, s.minor, 0⟩) ∧
    (st.current = none → reconcile st = Outcome.manual s) ∧
    (∀ v, reconcile st ≠ Outcome.autoBump v) ∧
    reconcile st ≠ Outcome.bumpFailed := by
  have hne : s ≠ st.head := by
    intro he
    rw [he] at hmin
    omega
  refine ⟨?_, ?_, ?_, ?_⟩
  · intro c hc
    simp [reconcile, handleMinorVersionBump, hs, hc, hmaj, hmin]
  · intro hc
    simp [reconcile, handleMinorVersionBump, hs, hc, hmaj, hmin, hne]
  · intro v
    cases hcur : st.current with
    | some c => simp [reconcile, handleMinorVersionBump, hs, hcur, hmaj, hmin]
    | none => simp [reconcile, handleMinorVersionBump, hs, hcur, hmaj, hmin, hne]
  · cases hcur : st.current with
    | some c => simp [reconcile, handleMinorVersionBump, hs, hcur, hmaj, hmin]
    | none => simp [reconcile, handleMinorVersionBump, hs, hcur, hmaj, hmin, hne]

theorem C1_minor_bump_priority_w :
    reconcile ⟨some ⟨1, 2, 5⟩, ⟨1, 1, 7⟩, some ⟨1, 2, 5⟩, true⟩
      = Outcome.resetPatch ⟨1, 2, 0⟩ :=
  (C1_minor_bump_priority ⟨some ⟨1, 2, 5⟩, ⟨1, 1, 7⟩, some ⟨1, 2, 5⟩, true⟩
    ⟨1, 2, 5⟩ rfl rfl (by decide)).1 ⟨1, 2, 5⟩ rfl

/-- C1 counterexample: with the staged version present (1.1.0), the same
major and a larger minor than HEAD (1.0.0), but the working-tree metadata
file unreadable, the hook does not rewrite the version to 1.1.0; it falls
through to the manual-change branch. -/
theorem C1_minor_bump_priority_cx :
    reconcile ⟨some ⟨1, 1, 0⟩, ⟨1, 0, 0⟩, none, true⟩
      = Outcome.manual ⟨1, 1, 0⟩ ∧
    reconcile ⟨some ⟨1, 1, 0⟩, ⟨1, 0, 0⟩, none, true⟩
      ≠ Outcome.resetPatch ⟨1, 1, 0⟩ := by
  decide

/-- C2 (amended): when the staged version equals HEAD (or is absent) and
the changed flag is true, the outcome is an auto patch bump whose new
version is the working-tree metadata version with its patch incremented —
which equals `head.patch + 1` exactly when the working-tree file agrees
with HEAD; when the working-tree file is unreadable the bump fails and
nothing is rewritten. -/
theorem C2_auto_patch_bump (st : FolderState)
    (hs : st.staged = some st.head ∨ st.staged = none)
    (hc : st.changed = true) :
    (∀ c, st.current = some c →
      reconcile st = Outcome.autoBump ⟨c.major, c.minor, c.patch + 1⟩) ∧
    (st.current = none → reconcile st = Outcome.bumpFailed) := by
  rcases hs with h | h
  · constructor
    · intro c hcur
      simp [reconcile, handleMinorVersionBump, bumpPatchVersion, h, hc, hcur]
    · intro hcur
      simp [reconcile, handleMinorVersionBump, bumpPatchVersion, h, hc, hcur]
  · constructor
    · intro c hcur
      simp [reconcile, bumpPatchVersion, h, hc, hcur]
    · intro hcur
      simp [reconcile, bumpPatchVersion, h, hc, hcur]

theorem C2_auto_patch_bump_w :
    reconcile ⟨some ⟨1, 0, 0⟩, ⟨1, 0, 0⟩, some ⟨1, 0, 0⟩, true⟩
      = Outcome.autoBump ⟨1, 0, 1⟩ :=
  (C2_auto_patch_bump ⟨some ⟨1, 0, 0⟩, ⟨1, 0, 0⟩, some ⟨1, 0, 0⟩, true⟩
    (Or.inl rfl) rfl).1 ⟨1, 0, 0⟩ rfl

/-- C2 counterexample: with staged = HEAD = 1.0.0 but the working-tree
metadata version at 2.3.5 and other files staged, the hook bumps the
working-tree version to 2.3.6, whose patch is not `head.patch + 1` and
whose major/minor are not HEAD's. -/
theorem C2_auto_patch_bump_cx :
    reconcile ⟨some ⟨1, 0, 0⟩, ⟨1, 0, 0⟩, some ⟨2, 3, 5⟩, true⟩
      = Outcome.autoBump ⟨2, 3, 6⟩ ∧
    reconcile ⟨some ⟨1, 0, 0⟩, ⟨1, 0, 0⟩, some ⟨2, 3, 5⟩, true⟩
      ≠ Outcome.autoBump ⟨1, 0, 0 + 1⟩ := by
  decide

/-- C3: when the staged version is present and differs from HEAD and the
minor-bump condition does not hold, the outcome is to accept the staged
version as a manual change, and no file is rewritten or staged. -/
theorem C3_manual_override (st : FolderState) (s : Version)
    (hs : st.staged = some s) (hne : s ≠ st.head)
    (hnb : ¬(s.major = st.head.major ∧ st.head.minor < s.minor)) :
    reconcile st = Outcome.manual s ∧ writesFile (reconcile st) = false := by
  have hrec : reconcile st = Outcome.manual s := by
    simp [reconcile, handleMinorVersionBump, hs, hnb, hne]
  exact ⟨hrec, by rw [hrec]; rfl⟩

theorem C3_manual_override_w :
    reconcile ⟨some ⟨2, 0, 0⟩, ⟨1, 5, 2⟩, some ⟨2, 0, 0⟩, true⟩
      = Outcome.manual ⟨2, 0, 0⟩ ∧
    writesFile (reconcile ⟨some ⟨2, 0, 0⟩, ⟨1, 5, 2⟩, some ⟨2, 0, 0⟩, true⟩)
      = false :=
  C3_manual_override ⟨some ⟨2, 0, 0⟩, ⟨1, 5, 2⟩, some ⟨2, 0, 0⟩, true⟩
    ⟨2, 0, 0⟩ rfl (by decide) (by decide)

/-- C4: for every pair of semantic versions, the composed tag string is
`A.minor.A.patch.B.minor.B.patch` of the back (A) and web (B) folders; in
particular versions 2.5.1 and 1.0.9 compose to "5.1.0.9". -/
theorem C4_tag_composition (a b : Version) :
    composeTagVersion (vString a) (vString b)
      = some (natStr a.minor ++ "." ++ natStr a.patch ++ "." ++
          natStr b.minor ++ "." ++ natStr b.patch) ∧
    vString ⟨2, 5, 1⟩ = "2.5.1" ∧ vString ⟨1, 0, 9⟩ = "1.0.9" ∧
    composeTagVersion "2.5.1" "1.0.9" = some "5.1.0.9" := by
  refine ⟨?_, by decide, by decide, by decide⟩
  unfold composeTagVersion
  rw [parseVersion_vString, parseVersion_vString]

/-- C5 (amended): the update replaces the text from the first occurrence
of `TAG_VERSION=` through the end of that line when the substring occurs,
else appends `TAG_VERSION=<tag>` directly to the end of the content, and
the result is trimmed of leading and trailing whitespace before being
written back.  Consequently the other lines are preserved byte-for-byte
when the file is a list of well-behaved newline-terminated `KEY=VALUE`
lines (each non-empty, without interior newlines, not starting or ending
in whitespace, and containing `TAG_VERSION=` only as the managed line):
in the replace case the managed line's value is rewritten and every other
line kept, in the append case a `TAG_VERSION=` line is added after the
unchanged lines.  Without those provisos other lines can change: a prior
content with no trailing newline has the appended entry fused onto its
last line, and leading whitespace is stripped by the trim. -/
theorem C5_env_update (ls ls1 ls2 : List (List Char)) (old tag : List Char)
    (hls : ∀ l ∈ ls, goodLine l = true ∧ hasSubstr tagKey l = false)
    (h1 : ∀ l ∈ ls1, goodLine l = true ∧ hasSubstr tagKey l = false)
    (h2 : ∀ l ∈ ls2, goodLine l = true ∧ hasSubstr tagKey l = false)
    (hold : goodTagValue old = true) (htag : goodTagValue tag = true) :
    splitOnChar '\n' (updateEnvCore (joinLines ls) tag)
      = ls ++ [tagKey ++ tag] ∧
    splitOnChar '\n'
        (updateEnvCore (joinLines (ls1 ++ (tagKey ++ old) :: ls2)) tag)
      = ls1 ++ (tagKey ++ tag) :: ls2 :=
  ⟨updateEnv_append_case hls htag, updateEnv_replace_case h1 h2 hold htag⟩

theorem C5_env_update_w :
    splitOnChar '\n' (updateEnvCore (joinLines [['A', '=', '1']]) ['9'])
      = [['A', '=', '1'], tagKey ++ ['9']] ∧
    splitOnChar '\n' (updateEnvCore
        (joinLines ([['A', '=', '1']] ++ (tagKey ++ ['0']) :: [['B', '=', '2']]))
        ['9'])
      = [['A', '=', '1']] ++ (tagKey ++ ['9']) :: [['B', '=', '2']] :=
  C5_env_update [['A', '=', '1']] [['A', '=', '1']] [['B', '=', '2']]
    ['0'] ['9'] (by decide) (by decide) (by decide) (by decide) (by decide)

/-- C5 counterexample: a prior environment file `"A=1"` (no trailing
newline, no `TAG_VERSION=` entry) is rewritten to `"A=1TAG_VERSION=9"`:
the new entry is fused onto the existing line, so the prior line `A=1` is
not left byte-for-byte unchanged. -/
theorem C5_env_update_cx :
    updateEnvContent "A=1" "9" = "A=1TAG_VERSION=9" ∧
    ¬ (['A', '=', '1'] ∈ splitOnChar '\n' (updateEnvContent "A=1" "9").data) := by
  decide

/-- C6: when the base tag `v{TagVersion}` already exists, the deploy-path
publisher's next candidate is `v{TagVersion}-1`; candidates for distinct
counters are distinct names, so a colliding name is never re-attempted;
and in general (with tag creation succeeding) the published name is the
candidate with the first counter whose name is absent from the store. -/
theorem C6_first_available (store : String → Bool) (base : String) (k : Nat)
    (hk : k < 100) (hfree : store (candidateName base k) = false)
    (hbusy : ∀ j, j < k → store (candidateName base j) = true) :
    Deploy.tagAttempts store (fun _ => true) base 0 100
      = some (candidateName base k) ∧
    candidateName base 0 = base ∧
    candidateName base 1 = base ++ "-1" ∧
    ∀ i j : Nat, i ≠ j → candidateName base i ≠ candidateName base j := by
  refine ⟨?_, rfl, ?_, fun i j h => candidateName_inj base h⟩
  · exact tagAttempts_first_free store base 100 0 k (by omega) (by omega) hfree
      (fun j _ hj => hbusy j hj)
  · show base ++ "-" ++ natStr 1 = base ++ "-1"
    cases base with
    | mk d =>
      show String.mk ((d ++ ['-']) ++ ['1']) = String.mk (d ++ ['-', '1'])
      exact congrArg String.mk (List.append_assoc d ['-'] ['1'])

theorem C6_first_available_w :
    Deploy.tagAttempts (fun s => s == "v1.0.0") (fun _ => true) "v1.0.0" 0 100
      = some (candidateName "v1.0.0" 1) ∧
    candidateName "v1.0.0" 1 = "v1.0.0" ++ "-1" :=
  ⟨(C6_first_available (fun s => s == "v1.0.0") "v1.0.0" 1 (by omega)
      (by decide) (by decide)).1,
   (C6_first_available (fun s => s == "v1.0.0") "v1.0.0" 1 (by omega)
      (by decide) (by decide)).2.2.1⟩

/-- C7: the deploy-path publisher consumes at most 100 attempts
(collisions and failed create/push attempts each consume one), and when
the bound is exhausted without success the process exits with code 1. -/
theorem C7_retry_bound (store ok : String → Bool) (env v : String)
    (hv : getTagVersionFromEnv env = some v)
    (hfail : Deploy.tagAttempts store ok ("v" ++ v) 0 100 = none) :
    Deploy.tagAttemptsCount store ok ("v" ++ v) 0 100 ≤ 100 ∧
    Deploy.deployMain store ok env = Except.error 1 := by
  refine ⟨tagAttemptsCount_le store ok _ 100 0, ?_⟩
  simp [Deploy.deployMain, hv, hfail]

theorem C7_retry_bound_w :
    Deploy.tagAttemptsCount (fun _ => true) (fun _ => true)
      ("v" ++ "1.0.0") 0 100 ≤ 100 ∧
    Deploy.deployMain (fun _ => true) (fun _ => true) "TAG_VERSION=1.0.0"
      = Except.error 1 :=
  C7_retry_bound (fun _ => true) (fun _ => true) "TAG_VERSION=1.0.0" "1.0.0"
    (by rfl) (by rfl)

/-- C8 (amended): a missing metadata file, unreadable content, or a
missing version field yields the default `0.0.0` (an absent result for
the staged reader) without raising, and everything `getCurrentVersion`
returns matches `\d+\.\d+\.\d+`; but `getHeadVersion` returns a present
non-empty version field unvalidated, so a malformed version string is
passed through as-is rather than normalised to `0.0.0`. -/
theorem C8_reader_defaults (c : MetaContent) (s : String) :
    getHeadVersion MetaContent.missing = "0.0.0" ∧
    getHeadVersion MetaContent.unreadable = "0.0.0" ∧
    getHeadVersion MetaContent.noVersionField = "0.0.0" ∧
    getStagedVersion MetaContent.missing = none ∧
    getStagedVersion MetaContent.unreadable = none ∧
    getStagedVersion MetaContent.noVersionField = none ∧
    isSemverFormat (getCurrentVersion c) = true ∧
    getHeadVersion (MetaContent.withVersion s)
      = (if s = "" then "0.0.0" else s) := by
  refine ⟨rfl, rfl, rfl, rfl, rfl, rfl, ?_, rfl⟩
  cases c with
  | missing => decide
  | unreadable => decide
  | noVersionField => decide
  | withVersion s' =>
    show isSemverFormat
      (if s' = "" then "0.0.0" else if isSemverFormat s' then s' else "0.0.0") = true
    by_cases h0 : s' = ""
    · rw [if_pos h0]
      decide
    · rw [if_neg h0]
      by_cases hf : isSemverFormat s' = true
      · rw [if_pos hf]
        exact hf
      · rw [if_neg hf]
        decide

/-- C8 counterexample: a HEAD metadata file whose version field is the
malformed string "abc" makes `getHeadVersion` return "abc", which does
not match `\d+\.\d+\.\d+` and is not normalised to `0.0.0`. -/
theorem C8_reader_defaults_cx :
    getHeadVersion (MetaContent.withVersion "abc") = "abc" ∧
    isSemverFormat "abc" = false ∧ "abc" ≠ "0.0.0" := by
  decide

/-- C9: under the rotation limit of 500, a log file holding 501
single-line entries is truncated to empty, and one holding exactly 500
entries is left untouched. -/
theorem C9_log_rotation (content : String) :
    (logEntries content = 501 → manageLog content 500 = (true, "")) ∧
    (logEntries content = 500 → manageLog content 500 = (false, content)) := by
  constructor
  · intro h
    unfold manageLog
    rw [if_pos (by omega)]
  · intro h
    unfold manageLog
    rw [if_neg (by omega)]

theorem C9_log_rotation_w :
    manageLog (mkEntries 501) 500 = (true, "") ∧
    manageLog (mkEntries 500) 500 = (false, mkEntries 500) :=
  ⟨(C9_log_rotation (mkEntries 501)).1 (logEntries_mkEntries 501),
   (C9_log_rotation (mkEntries 500)).2 (logEntries_mkEntries 500)⟩

/-- C10 (amended): the two publishers agree — both publish
`v{TagVersion}` and succeed — whenever that base tag does not already
exist and creating plus pushing it succeeds; they are not equivalent in
general, because on an existing base tag the deploy path retries with
suffix counters while the post-commit hook fails without publishing. -/
theorem C10_publishers_agree (store ok : String → Bool) (env v : String)
    (hv : getTagVersionFromEnv env = some v)
    (hfree : store ("v" ++ v) = false) (hok : ok ("v" ++ v) = true) :
    PostCommit.createAndPushTag store ok env = some ("v" ++ v) ∧
    Deploy.createAndPushTag store ok env = some ("v" ++ v) := by
  constructor
  · simp [PostCommit.createAndPushTag, hv, hfree, hok]
  · simp only [Deploy.createAndPushTag, hv]
    unfold Deploy.tagAttempts
    simp [candidateName, hfree, hok]

theorem C10_publishers_agree_w :
    PostCommit.createAndPushTag (fun _ => false) (fun _ => true)
      "TAG_VERSION=1.0.0" = some ("v" ++ "1.0.0") ∧
    Deploy.createAndPushTag (fun _ => false) (fun _ => true)
      "TAG_VERSION=1.0.0" = some ("v" ++ "1.0.0") :=
  C10_publishers_agree (fun _ => false) (fun _ => true) "TAG_VERSION=1.0.0"
    "1.0.0" (by rfl) (by rfl) (by rfl)

/-- C10 counterexample: with tag `v1.0.0` already in the store, the
deploy-path publisher publishes `v1.0.0-1` while the post-commit hook
publishes nothing, so the two implementations are not equivalent. -/
theorem C10_publishers_agree_cx :
    Deploy.createAndPushTag (fun s => s == "v1.0.0") (fun _ => true)
      "TAG_VERSION=1.0.0" = some "v1.0.0-1" ∧
    PostCommit.createAndPushTag (fun s => s == "v1.0.0") (fun _ => true)
      "TAG_VERSION=1.0.0" = none := by
  decide

end Hooks
